import Mathlib

/-!
Shallow embedding of the Forge Overlay hash-chained event log
(src/_misc/forge-overlay-core.js) together with proofs about its
documented behaviour.

Modelling conventions:
* JavaScript numbers are modelled as rationals (all values handled by the
  engine are small decimal literals; Math.round(x) is floor (x + 1/2)).
* The SHA-256 branch of sha256Hex runs on a platform primitive
  (crypto.subtle), so the digest is a parameter H : String → String of
  every chain operation; the computable fallback branch of sha256Hex
  (the XOR rolling checksum, lines 40-44 of the source) is modelled
  concretely as sha256HexFallback and is used for concrete runs.
* JSON.stringify on the fixed five-field entry object is modelled by a
  deterministic serialiser with the same key order
  (type, data, t, appId, profileId).  In appendEvent the source
  stringifies the entry object built by log/startHeartbeat, which has
  exactly this shape, so both serialisations coincide by definition.
* Effects (Math.random nonces, Date timestamps, IndexedDB/localStorage
  persistence) become explicit arguments and explicit state: the store is
  the ordered list of persisted records, the meta slot an Option value.
* The overlay UI, timers and event listeners are outside the data model.
-/

attribute [local semireducible] Rat.add Rat.mul Rat.inv Rat.sub

namespace Forge

/-- Free-form record data object.  The engine only ever inspects the
amount field (accrual) and stores a path field for click/heartbeat
records, so the object is modelled with those two optional fields. -/
structure Data where
  amount : Option ℚ
  path : Option String
deriving DecidableEq, Repr

/-- Entry as built by log/startHeartbeat: the five fields that are
serialised into the hashed payload. -/
structure Entry where
  type : String
  data : Data
  t : String
  appId : String
  profileId : String
deriving DecidableEq, Repr

/-- Stored record: the entry fields plus prev, nonce, hash
(rec = \x7b...entry, prev, nonce, hash\x7d in appendEvent). -/
structure Record where
  type : String
  data : Data
  t : String
  appId : String
  profileId : String
  prev : String
  nonce : String
  hash : String
deriving DecidableEq, Repr

/-- JSON string literal (escaping is not needed for the values the
engine produces). -/
def jsonStr (s : String) : String := "\"" ++ s ++ "\""

/-- JSON number rendering for the rationals we use; deterministic. -/
def jsonNum (q : ℚ) : String :=
  if q.den = 1 then toString q.num else toString q

/-- JSON.stringify of the data object, fields in insertion order. -/
def Data.json (d : Data) : String :=
  let fs :=
    (match d.amount with
     | some a => ["\"amount\":" ++ jsonNum a]
     | none => []) ++
    (match d.path with
     | some p => ["\"path\":" ++ jsonStr p]
     | none => [])
  "\x7b" ++ String.intercalate "," fs ++ "\x7d"

/-- JSON.stringify(\x7btype, data, t, appId, profileId\x7d) — the canonical
payload hashed by appendEvent and recomputed by rebuildFromZero/verify. -/
def Entry.payload (e : Entry) : String :=
  "\x7b\"type\":" ++ jsonStr e.type ++ ",\"data\":" ++ e.data.json ++
    ",\"t\":" ++ jsonStr e.t ++ ",\"appId\":" ++ jsonStr e.appId ++
    ",\"profileId\":" ++ jsonStr e.profileId ++ "\x7d"

/-- The entry part of a stored record. -/
def Record.entry (r : Record) : Entry :=
  ⟨r.type, r.data, r.t, r.appId, r.profileId⟩

/-- Canonical payload of a stored record, as recomputed during replay. -/
def Record.payload (r : Record) : String := r.entry.payload

/-- Hexadecimal digits of a natural number (toString(16)). -/
def toHexDigits (n : Nat) : String := String.mk (Nat.toDigits 16 n)

/-- Fallback branch of sha256Hex: XOR rolling checksum over the UTF-16
code units, rendered as 8 hex digits left-padded with zeros and then
right-padded with zeros to 64 characters. -/
def sha256HexFallback (s : String) : String :=
  let h := s.data.foldl (fun h c => (h ^^^ c.toNat) % 4294967296) 0
  let t := "00000000" ++ toHexDigits h
  (t.drop (t.length - 8)).pushn '0' 56

/-- Derived state object (module-level state in the source; lastAt is
declared there and never updated). -/
structure ForgeState where
  xp : ℚ
  streak : ℕ
  lastAt : ℚ
  events : ℕ
  rootHash : String
deriving DecidableEq, Repr

/-- Persisted metadata slot \x7blastHash, state\x7d. -/
structure Meta where
  lastHash : String
  state : ForgeState
deriving DecidableEq, Repr

/-- Engine options (appId/profileId; the ui flag only affects the
overlay, which is outside the model). -/
structure Options where
  appId : String
  profileId : String
deriving DecidableEq, Repr

/-- Whole engine: options, in-memory lastHash and state, the persisted
ordered event store, and the persisted metadata slot. -/
structure Engine where
  opts : Options
  lastHash : String
  state : ForgeState
  store : List Record
  meta : Option Meta
deriving DecidableEq, Repr

/-- Initial derived state. -/
def initState : ForgeState := ⟨0, 0, 0, 0, "GENESIS"⟩

/-- Fresh engine with an empty store (module initial values). -/
def freshEngine : Engine :=
  ⟨⟨"app", "anon"⟩, "GENESIS", initState, [], none⟩

/-- saveMeta: persist \x7blastHash, state\x7d into the metadata slot. -/
def saveMeta (e : Engine) : Engine :=
  { e with meta := some ⟨e.lastHash, e.state⟩ }

/-- appendEvent: hash (lastHash | payload | nonce), build the record,
persist it, advance lastHash/rootHash/events, save meta, return it. -/
def appendEvent (H : String → String) (en : Entry) (nonce : String)
    (e : Engine) : Record × Engine :=
  let payload := en.payload
  let hash := H (e.lastHash ++ "|" ++ payload ++ "|" ++ nonce)
  let r : Record :=
    ⟨en.type, en.data, en.t, en.appId, en.profileId, e.lastHash, nonce, hash⟩
  let st := { e.state with rootHash := hash, events := e.state.events + 1 }
  (r, saveMeta { e with store := e.store ++ [r], lastHash := hash, state := st })

/-- Accrual amount for an xp record: (e.data && e.data.amount) || 1 with
data always an object (hence truthy); amount equal to 0 is falsy in
JavaScript, so it falls through to the default 1. -/
def xpAmountRule (d : Data) : ℚ :=
  match d.amount with
  | some a => if a = 0 then 1 else a
  | none => 1

/-- Result of the replay loop inside rebuildFromZero. -/
structure ReplayOut where
  ok : Bool
  prev : String
  xp : ℚ
  streak : ℕ
deriving DecidableEq, Repr

/-- The for-loop of rebuildFromZero: walk the records, break on the
first broken link, otherwise accrue xp and streak. -/
def replayLoop (H : String → String) :
    List Record → String → ℚ → ℕ → Option String → ReplayOut
  | [], prev, xp, streak, _ => ⟨true, prev, xp, streak⟩
  | r :: rest, prev, xp, streak, lastDay =>
    let recomputed := H (r.prev ++ "|" ++ r.payload ++ "|" ++ r.nonce)
    if r.prev ≠ prev ∨ recomputed ≠ r.hash then ⟨false, prev, xp, streak⟩
    else
      let xp1 := xp + (if r.type = "xp" then xpAmountRule r.data else 0)
      let xp2 := xp1 + (if r.type = "heartbeat" then (1 : ℚ) / 10 else 0)
      let day := r.t.take 10
      if day ≠ "" ∧ some day ≠ lastDay then
        replayLoop H rest r.hash xp2 (streak + 1) (some day)
      else
        replayLoop H rest r.hash xp2 streak lastDay

/-- Math.round: floor (x + 1/2). -/
def jsRound (q : ℚ) : ℤ := (q + 1 / 2).floor

/-- rebuildFromZero: replay the whole store from GENESIS, then
unconditionally overwrite lastHash and the derived state (rootHash, xp
rounded, streak, events := total store length) and persist the meta
snapshot; return the ok flag only (the source returns \x7b ok \x7d). -/
def rebuildFromZero (H : String → String) (e : Engine) : Bool × Engine :=
  let out := replayLoop H e.store "GENESIS" 0 0 none
  let st := { e.state with
    rootHash := out.prev
    xp := ((jsRound out.xp : ℤ) : ℚ)
    streak := out.streak
    events := e.store.length }
  (out.ok, saveMeta { e with lastHash := out.prev, state := st })

/-- log(type, data): build the entry from the options and the clock,
append it, then apply the optimistic +1 xp bump for the two common
interactive types. -/
def log (H : String → String) (type : String) (data : Data)
    (t nonce : String) (e : Engine) : Record × Engine :=
  let en : Entry := ⟨type, data, t, e.opts.appId, e.opts.profileId⟩
  let (r, e1) := appendEvent H en nonce e
  if type = "click" ∨ type = "quest:complete" then
    (r, { e1 with state := { e1.state with xp := e1.state.xp + 1 } })
  else
    (r, e1)

/-- getState: the source returns JSON.parse(JSON.stringify(\x7b...state\x7d)),
a deep copy; on pure values a copy is the value itself. -/
def getState (e : Engine) : ForgeState := e.state

/-- Export summary object. -/
structure Summary where
  appId : String
  profileId : String
  entries : ℕ
  xp : ℚ
  streak : ℕ
deriving DecidableEq, Repr

/-- exportLog result \x7bentries, rootHash, summary\x7d. -/
structure ExportData where
  entries : List Record
  rootHash : String
  summary : Summary
deriving DecidableEq, Repr

/-- exportLog: the full stored sequence, the current root hash and a
summary of the current derived state. -/
def exportLog (e : Engine) : ExportData :=
  ⟨e.store, e.state.rootHash,
    ⟨e.opts.appId, e.opts.profileId, e.store.length, e.state.xp, e.state.streak⟩⟩

/-- Result of importLog \x7bok, merged\x7d. -/
structure ImportResult where
  ok : Bool
  merged : ℕ
deriving DecidableEq, Repr

/-- The merge walk of importLog: a foreign record is appended to the
store exactly when its prev equals the current walk head, which then
advances to its hash; other records are skipped silently. -/
def mergeLoop : List Record → String → List Record → List Record × String × ℕ
  | [], prev, store => (store, prev, 0)
  | r :: rest, prev, store =>
    if r.prev = prev then
      let (s1, p1, m) := mergeLoop rest r.hash (store ++ [r])
      (s1, p1, m + 1)
    else
      mergeLoop rest prev store

/-- importLog: reject a missing payload, merge the foreign entries that
extend the current rootHash, then run a full rebuildFromZero. -/
def importLog (H : String → String) (json : Option ExportData)
    (e : Engine) : ImportResult × Engine :=
  match json with
  | none => (⟨false, 0⟩, e)
  | some j =>
    let res := mergeLoop j.entries e.state.rootHash e.store
    let e2 := (rebuildFromZero H { e with store := res.1 }).2
    (⟨true, res.2.2⟩, e2)

/-- Result of verify \x7bok, errorIndex?\x7d. -/
structure VerifyResult where
  ok : Bool
  errorIndex : Option ℕ
deriving DecidableEq, Repr

/-- The for-loop of verify: same integrity walk as the replay loop, no
state mutation, reports the first broken index. -/
def verifyLoop (H : String → String) :
    List Record → String → ℕ → VerifyResult
  | [], _, _ => ⟨true, none⟩
  | r :: rest, prev, i =>
    let recomputed := H (r.prev ++ "|" ++ r.payload ++ "|" ++ r.nonce)
    if r.prev ≠ prev ∨ recomputed ≠ r.hash then ⟨false, some i⟩
    else verifyLoop H rest r.hash (i + 1)

/-- verify: read-only integrity audit of the stored sequence. -/
def verify (H : String → String) (e : Engine) : VerifyResult :=
  verifyLoop H e.store "GENESIS" 0

/-- Fold a list of (entry, nonce) pairs through appendEvent. -/
def appendAll (H : String → String) (evs : List (Entry × String))
    (e : Engine) : Engine :=
  evs.foldl (fun acc p => (appendEvent H p.1 p.2 acc).2) e

/-! Analysis helpers.  These restate the integrity walk as separate
functions so that the loops of rebuildFromZero and verify can be
described by one decomposition lemma each. -/

/-- Integrity check of one record against the expected chain head: the
negation of the break/fail condition of the replay and verify loops. -/
def linkOk (H : String → String) (r : Record) (prev : String) : Bool :=
  decide (r.prev = prev ∧ H (r.prev ++ "|" ++ r.payload ++ "|" ++ r.nonce) = r.hash)

/-- Longest check-passing initial segment of the stored sequence. -/
def validPart (H : String → String) : List Record → String → List Record
  | [], _ => []
  | r :: rest, prev =>
    if linkOk H r prev then r :: validPart H rest r.hash else []

/-- Whether the whole stored sequence passes the integrity walk. -/
def chainOk (H : String → String) : List Record → String → Bool
  | [], _ => true
  | r :: rest, prev =>
    if linkOk H r prev then chainOk H rest r.hash else false

/-- Chain head after a record sequence: hash of its last record, or the
starting head when it is empty. -/
def headAfter (l : List Record) (prev : String) : String :=
  l.foldl (fun _ r => r.hash) prev

/-- Experience-point contribution of one record during replay: the two
accrual conditionals of the loop body combined. -/
def xpDelta (r : Record) : ℚ :=
  (if r.type = "xp" then xpAmountRule r.data else 0) +
    (if r.type = "heartbeat" then (1 : ℚ) / 10 else 0)

/-- Total replay xp over a record sequence. -/
def xpSum (l : List Record) : ℚ := (l.map xpDelta).sum

/-- UTC calendar date of a record: first ten characters of t. -/
def dayOf (r : Record) : String := r.t.take 10

/-- The streak accrual of the replay loop over a list of dates, given
the last counted date. -/
def streakFold : List String → Option String → ℕ
  | [], _ => 0
  | d :: rest, lastDay =>
    if d ≠ "" ∧ some d ≠ lastDay then streakFold rest (some d) + 1
    else streakFold rest lastDay

/-- Streak accrual over a record sequence. -/
def streakSum (l : List Record) (lastDay : Option String) : ℕ :=
  streakFold (l.map dayOf) lastDay

/-- Number of distinct calendar dates among the record timestamps
(the quantity named by the specification streak description). -/
def distinctDayCount (l : List Record) : ℕ :=
  ((l.map dayOf).dedup).length

theorem linkOk_iff (H : String → String) (r : Record) (prev : String) :
    linkOk H r prev = true ↔
      (r.prev = prev ∧ H (r.prev ++ "|" ++ r.payload ++ "|" ++ r.nonce) = r.hash) := by
  simp [linkOk]

/-- Decomposition of the rebuildFromZero loop: it reports whether the
whole chain checks out, walks the head across the valid part, and
accrues xp and streak exactly over the valid part. -/
theorem replayLoop_eq (H : String → String) (l : List Record) :
    ∀ prev xp streak lastDay,
      replayLoop H l prev xp streak lastDay =
        ⟨chainOk H l prev,
          headAfter (validPart H l prev) prev,
          xp + xpSum (validPart H l prev),
          streak + streakSum (validPart H l prev) lastDay⟩ := by
  induction l with
  | nil =>
    intro prev xp streak lastDay
    simp [replayLoop, chainOk, validPart, headAfter, xpSum, streakSum, streakFold]
  | cons r rest ih =>
    intro prev xp streak lastDay
    by_cases hok : r.prev = prev ∧ H (r.prev ++ "|" ++ r.payload ++ "|" ++ r.nonce) = r.hash
    · have hnot : ¬(r.prev ≠ prev ∨ H (r.prev ++ "|" ++ r.payload ++ "|" ++ r.nonce) ≠ r.hash) := by
        push_neg
        exact hok
      have hlink : linkOk H r prev = true := (linkOk_iff H r prev).2 hok
      by_cases hday : r.t.take 10 ≠ "" ∧ some (r.t.take 10) ≠ lastDay
      · rw [replayLoop, if_neg hnot]
        simp only [if_pos hday]
        rw [ih]
        simp only [chainOk, validPart, hlink, if_true, headAfter, List.foldl_cons,
          xpSum, List.map_cons, List.sum_cons, streakSum, streakFold, dayOf,
          if_pos hday, xpDelta, ReplayOut.mk.injEq]
        exact ⟨trivial, trivial, by ring, by omega⟩
      · rw [replayLoop, if_neg hnot]
        simp only [if_neg hday]
        rw [ih]
        simp only [chainOk, validPart, hlink, if_true, headAfter, List.foldl_cons,
          xpSum, List.map_cons, List.sum_cons, streakSum, streakFold, dayOf,
          if_neg hday, xpDelta, ReplayOut.mk.injEq]
        exact ⟨trivial, trivial, by ring, trivial⟩
    · have hcond : r.prev ≠ prev ∨ H (r.prev ++ "|" ++ r.payload ++ "|" ++ r.nonce) ≠ r.hash := by
        rcases not_and_or.1 hok with h | h
        · exact Or.inl h
        · exact Or.inr h
      have hlink : linkOk H r prev = false := by
        simp [linkOk, hok]
      rw [replayLoop, if_pos hcond]
      simp only [chainOk, validPart, hlink, Bool.false_eq_true, if_false, headAfter,
        List.foldl_nil, xpSum, List.map_nil, List.sum_nil, streakSum, streakFold,
        ReplayOut.mk.injEq]
      exact ⟨trivial, trivial, by ring, by omega⟩

/-- Decomposition of the verify loop: same walk, errorIndex is the
offset plus the length of the valid part when the chain is broken. -/
theorem verifyLoop_eq (H : String → String) (l : List Record) :
    ∀ prev i,
      verifyLoop H l prev i =
        if chainOk H l prev then ⟨true, none⟩
        else ⟨false, some (i + (validPart H l prev).length)⟩ := by
  induction l with
  | nil =>
    intro prev i
    simp [verifyLoop, chainOk]
  | cons r rest ih =>
    intro prev i
    by_cases hok : r.prev = prev ∧ H (r.prev ++ "|" ++ r.payload ++ "|" ++ r.nonce) = r.hash
    · have hnot : ¬(r.prev ≠ prev ∨ H (r.prev ++ "|" ++ r.payload ++ "|" ++ r.nonce) ≠ r.hash) := by
        push_neg
        exact hok
      have hlink : linkOk H r prev = true := (linkOk_iff H r prev).2 hok
      simp only [verifyLoop, if_neg hnot, ih, chainOk, validPart, if_pos hlink]
      by_cases hc : chainOk H rest r.hash = true
      · simp [hc]
      · simp only [Bool.not_eq_true] at hc
        simp [hc]
        omega
    · have hcond : r.prev ≠ prev ∨ H (r.prev ++ "|" ++ r.payload ++ "|" ++ r.nonce) ≠ r.hash := by
        rcases not_and_or.1 hok with h | h
        · exact Or.inl h
        · exact Or.inr h
      have hlink : linkOk H r prev = false := by
        simp [linkOk, hok]
      simp [verifyLoop, if_pos hcond, chainOk, validPart, hlink]

/-- A fully valid sequence is its own valid part. -/
theorem validPart_of_chainOk (H : String → String) (l : List Record) :
    ∀ prev, chainOk H l prev = true → validPart H l prev = l := by
  induction l with
  | nil => intro prev _; rfl
  | cons r rest ih =>
    intro prev h
    by_cases hlink : linkOk H r prev = true
    · simp only [chainOk, if_pos hlink] at h
      simp [validPart, hlink, ih r.hash h]
    · simp only [chainOk] at h
      rw [if_neg hlink] at h
      exact absurd h (by simp)

theorem headAfter_append (l : List Record) (r : Record) (prev : String) :
    headAfter (l ++ [r]) prev = r.hash := by
  simp [headAfter]

theorem chainOk_append (H : String → String) (l : List Record) (r : Record) :
    ∀ prev, chainOk H l prev = true → linkOk H r (headAfter l prev) = true →
      chainOk H (l ++ [r]) prev = true := by
  induction l with
  | nil =>
    intro prev _ hr
    simp only [headAfter, List.foldl_nil] at hr
    simp [chainOk, hr]
  | cons a rest ih =>
    intro prev hok hr
    have hla : linkOk H a prev = true := by
      by_contra hla
      simp only [chainOk, if_neg hla] at hok
      exact absurd hok (by simp)
    simp only [chainOk, if_pos hla] at hok
    simp only [headAfter, List.foldl_cons] at hr
    simp only [List.cons_append, chainOk, if_pos hla]
    exact ih a.hash hok hr

/-- Chain invariant maintained by appendEvent: the store passes the
integrity walk and its final head is the in-memory lastHash. -/
def Chained (H : String → String) (e : Engine) : Prop :=
  chainOk H e.store "GENESIS" = true ∧ headAfter e.store "GENESIS" = e.lastHash

theorem chained_fresh (H : String → String) : Chained H freshEngine :=
  ⟨rfl, rfl⟩

theorem chained_appendEvent (H : String → String) (en : Entry) (nonce : String)
    (e : Engine) (h : Chained H e) : Chained H (appendEvent H en nonce e).2 := by
  obtain ⟨hok, hhead⟩ := h
  constructor
  · apply chainOk_append H e.store _ "GENESIS" hok
    rw [hhead]
    simp [linkOk, appendEvent, Record.payload, Record.entry, Entry.payload]
  · rw [appendEvent]
    exact headAfter_append e.store _ "GENESIS"

theorem chained_appendAll (H : String → String) (evs : List (Entry × String)) :
    ∀ e, Chained H e → Chained H (appendAll H evs e) := by
  induction evs with
  | nil => intro e h; exact h
  | cons p rest ih =>
    intro e h
    exact ih _ (chained_appendEvent H p.1 p.2 e h)

/-- C1: for every non-empty sequence of records created solely through
appendEvent starting from an empty store (each hashed over the current
chain head, its canonical payload and the supplied nonce, persisted in
order), a subsequent verify() returns ok = true. -/
theorem c1_append_only_verify_ok (H : String → String)
    (evs : List (Entry × String)) (hne : evs ≠ []) :
    (verify H (appendAll H evs freshEngine)).ok = true := by
  have h := chained_appendAll H evs freshEngine (chained_fresh H)
  unfold verify
  rw [verifyLoop_eq]
  simp [h.1]

/-- Concrete fixture entries used by the closed witness runs. -/
def entryXp5 : Entry :=
  ⟨"xp", ⟨some 5, none⟩, "2025-01-01T00:00:00.000Z", "app", "anon"⟩

theorem c1_append_only_verify_ok_witness :
    ([(entryXp5, "n1")] : List (Entry × String)) ≠ [] ∧
      (verify sha256HexFallback
        (appendAll sha256HexFallback [(entryXp5, "n1")] freshEngine)).ok = true :=
  ⟨by decide, c1_append_only_verify_ok sha256HexFallback [(entryXp5, "n1")] (by decide)⟩

theorem rebuildFromZero_fst (H : String → String) (e : Engine) :
    (rebuildFromZero H e).1 = chainOk H e.store "GENESIS" := by
  unfold rebuildFromZero
  rw [replayLoop_eq]

theorem rebuildFromZero_store (H : String → String) (e : Engine) :
    (rebuildFromZero H e).2.store = e.store := rfl

theorem verify_ok_eq_chainOk (H : String → String) (e : Engine) :
    (verify H e).ok = chainOk H e.store "GENESIS" := by
  unfold verify
  rw [verifyLoop_eq]
  by_cases h : chainOk H e.store "GENESIS" = true
  · simp [h]
  · simp only [Bool.not_eq_true] at h
    simp [h]

/-- C6 (amended): on a store whose integrity walk fails, rebuildFromZero
stops at the first broken record and returns ok = false — without the
failing index, which only verify reports (as the length of the valid
initial segment) — and it neither repairs nor deletes any stored
record. -/
theorem c6_rebuild_failure_result (H : String → String) (e : Engine)
    (hbad : chainOk H e.store "GENESIS" = false) :
    (rebuildFromZero H e).1 = false ∧
      (rebuildFromZero H e).2.store = e.store ∧
      (verify H e).errorIndex = some (validPart H e.store "GENESIS").length := by
  refine ⟨?_, rfl, ?_⟩
  · rw [rebuildFromZero_fst, hbad]
  · unfold verify
    rw [verifyLoop_eq]
    simp [hbad]

/-- Record with a broken prev link, used to build corrupted stores. -/
def badRec : Record :=
  ⟨"xp", ⟨none, none⟩, "2025-01-02T00:00:00.000Z", "app", "anon",
    "WRONG", "n9", "h9"⟩

/-- Corrupted store failing at index 0. -/
def c6engA : Engine := { freshEngine with store := [badRec] }

/-- One valid appended record followed by a corrupted one: fails at 1. -/
def c6engB : Engine :=
  let e := appendAll sha256HexFallback [(entryXp5, "n1")] freshEngine
  { e with store := e.store ++ [badRec] }

set_option maxRecDepth 1000000 in
/-- C6 counterexample: two stores that fail at different indices (0 and
1, as verify reports) on which rebuildFromZero returns the very same
result value — so the value returned by rebuildFromZero cannot carry
the failing index. -/
theorem c6_counterexample :
    (verify sha256HexFallback c6engA).errorIndex = some 0 ∧
      (verify sha256HexFallback c6engB).errorIndex = some 1 ∧
      (rebuildFromZero sha256HexFallback c6engA).1 =
        (rebuildFromZero sha256HexFallback c6engB).1 := by
  decide

set_option maxRecDepth 1000000 in
theorem c6_rebuild_failure_result_witness :
    chainOk sha256HexFallback c6engA.store "GENESIS" = false ∧
      ((rebuildFromZero sha256HexFallback c6engA).1 = false ∧
        (rebuildFromZero sha256HexFallback c6engA).2.store = c6engA.store ∧
        (verify sha256HexFallback c6engA).errorIndex =
          some (validPart sha256HexFallback c6engA.store "GENESIS").length) :=
  ⟨by decide, c6_rebuild_failure_result sha256HexFallback c6engA (by decide)⟩

/-- C9: when the integrity walk fails, rebuildFromZero still overwrites
and persists the metadata snapshot: the chain head becomes the head of
the valid initial segment, xp and streak are the accrual over that
segment only, eventCount is the total number of stored records
(including the invalid ones), and the meta slot receives the mutated
snapshot — the derived state is mutated even on a failed replay. -/
theorem c9_rebuild_failure_mutates_state (H : String → String) (e : Engine)
    (hbad : chainOk H e.store "GENESIS" = false) :
    (rebuildFromZero H e).1 = false ∧
      (rebuildFromZero H e).2.state.rootHash =
        headAfter (validPart H e.store "GENESIS") "GENESIS" ∧
      (rebuildFromZero H e).2.lastHash =
        headAfter (validPart H e.store "GENESIS") "GENESIS" ∧
      (rebuildFromZero H e).2.state.xp =
        ((jsRound (xpSum (validPart H e.store "GENESIS")) : ℤ) : ℚ) ∧
      (rebuildFromZero H e).2.state.streak =
        streakSum (validPart H e.store "GENESIS") none ∧
      (rebuildFromZero H e).2.state.events = e.store.length ∧
      (rebuildFromZero H e).2.meta =
        some ⟨(rebuildFromZero H e).2.lastHash, (rebuildFromZero H e).2.state⟩ := by
  refine ⟨by rw [rebuildFromZero_fst, hbad], ?_, ?_, ?_, ?_, rfl, rfl⟩ <;>
    simp [rebuildFromZero, saveMeta, replayLoop_eq]

set_option maxRecDepth 1000000 in
theorem c9_rebuild_failure_mutates_state_witness :
    chainOk sha256HexFallback c6engB.store "GENESIS" = false ∧
      ((rebuildFromZero sha256HexFallback c6engB).1 = false ∧
        (rebuildFromZero sha256HexFallback c6engB).2.state.rootHash =
          headAfter (validPart sha256HexFallback c6engB.store "GENESIS") "GENESIS" ∧
        (rebuildFromZero sha256HexFallback c6engB).2.lastHash =
          headAfter (validPart sha256HexFallback c6engB.store "GENESIS") "GENESIS" ∧
        (rebuildFromZero sha256HexFallback c6engB).2.state.xp =
          ((jsRound (xpSum (validPart sha256HexFallback c6engB.store "GENESIS")) : ℤ) : ℚ) ∧
        (rebuildFromZero sha256HexFallback c6engB).2.state.streak =
          streakSum (validPart sha256HexFallback c6engB.store "GENESIS") none ∧
        (rebuildFromZero sha256HexFallback c6engB).2.state.events = c6engB.store.length ∧
        (rebuildFromZero sha256HexFallback c6engB).2.meta =
          some ⟨(rebuildFromZero sha256HexFallback c6engB).2.lastHash,
            (rebuildFromZero sha256HexFallback c6engB).2.state⟩) :=
  ⟨by decide, c9_rebuild_failure_mutates_state sha256HexFallback c6engB (by decide)⟩

theorem streakFold_aux (l : List String) :
    ∀ a, (∀ d ∈ l, d ≠ "") → List.Pairwise (· ≤ ·) (a :: l) →
      streakFold l (some a) = (a :: l).dedup.length - 1 := by
  induction l with
  | nil =>
    intro a _ _
    simp [streakFold, List.dedup]
  | cons b rest ih =>
    intro a hne hp
    obtain ⟨hab, hp'⟩ := List.pairwise_cons.1 hp
    have hb : b ≠ "" := hne b (by simp)
    by_cases heq : b = a
    · subst heq
      have hcount : streakFold (b :: rest) (some b) = streakFold rest (some b) := by
        simp [streakFold]
      rw [hcount, ih b (fun d hd => hne d (by simp [hd])) hp']
      have hmem : b ∈ b :: rest := by simp
      rw [List.dedup_cons_of_mem hmem]
    · have hcount : streakFold (b :: rest) (some a) = streakFold rest (some b) + 1 := by
        simp [streakFold, hb, heq]
      rw [hcount, ih b (fun d hd => hne d (by simp [hd])) hp']
      have hnotmem : a ∉ b :: rest := by
        intro hmem
        rcases List.mem_cons.1 hmem with h | h
        · exact heq h.symm
        · have h1 : b ≤ a := (List.pairwise_cons.1 hp').1 a h
          have h2 : a ≤ b := hab b (by simp)
          exact heq (le_antisymm h1 h2)
      rw [List.dedup_cons_of_not_mem hnotmem]
      have hpos : 0 < (b :: rest).dedup.length := by
        have hmm : b ∈ (b :: rest).dedup := List.mem_dedup.2 (by simp)
        cases hdd : (b :: rest).dedup with
        | nil => rw [hdd] at hmm; exact absurd hmm (List.not_mem_nil b)
        | cons x xs => simp
      simp only [List.length_cons]
      omega

/-- Over a list of nonempty dates in non-decreasing order, the replay
streak accrual counts exactly the distinct dates. -/
theorem streakFold_sorted (l : List String)
    (h1 : ∀ d ∈ l, d ≠ "") (h2 : List.Pairwise (· ≤ ·) l) :
    streakFold l none = l.dedup.length := by
  cases l with
  | nil => rfl
  | cons b rest =>
    have hb : b ≠ "" := h1 b (by simp)
    have hcount : streakFold (b :: rest) none = streakFold rest (some b) + 1 := by
      simp [streakFold, hb]
    rw [hcount, streakFold_aux rest b (fun d hd => h1 d (by simp [hd])) h2]
    have hpos : 0 < (b :: rest).dedup.length := by
      have hmm : b ∈ (b :: rest).dedup := List.mem_dedup.2 (by simp)
      cases hdd : (b :: rest).dedup with
      | nil => rw [hdd] at hmm; exact absurd hmm (List.not_mem_nil b)
      | cons x xs => simp
    have hsub : (b :: rest).dedup.length - 1 + 1 = (b :: rest).dedup.length := by omega
    by_cases hbm : b ∈ rest
    · rw [List.dedup_cons_of_mem hbm] at hsub ⊢
      rw [List.dedup_cons_of_mem hbm] at hpos
      omega
    · rw [List.dedup_cons_of_not_mem hbm]
      rw [List.dedup_cons_of_not_mem hbm] at hsub
      omega

/-- C3 (amended): for a stored sequence that passes the integrity walk,
whose records all carry a nonempty date and whose dates are
non-decreasing in storage order (the shape real-time appends produce),
the streak computed by replay equals the number of distinct UTC
calendar dates among the records.  In general the replay loop only
compares each date with the last counted one, so out-of-order dates
are counted once per change of day, not once per distinct day (see the
counterexample). -/
theorem c3_sorted_streak_eq_distinct (H : String → String) (e : Engine)
    (hvalid : chainOk H e.store "GENESIS" = true)
    (hne : ∀ r ∈ e.store, dayOf r ≠ "")
    (hsorted : List.Pairwise (· ≤ ·) (e.store.map dayOf)) :
    (rebuildFromZero H e).2.state.streak = distinctDayCount e.store := by
  have hvp := validPart_of_chainOk H e.store "GENESIS" hvalid
  have h1 : ∀ d ∈ e.store.map dayOf, d ≠ "" := by
    intro d hd
    obtain ⟨r, hr, hrd⟩ := List.mem_map.1 hd
    rw [← hrd]
    exact hne r hr
  unfold rebuildFromZero
  rw [replayLoop_eq]
  simp only [saveMeta, hvp]
  show 0 + streakSum e.store none = distinctDayCount e.store
  simp only [streakSum, distinctDayCount, Nat.zero_add]
  exact streakFold_sorted (e.store.map dayOf) h1 hsorted

/-- Entries on days 2025-01-01, 2025-01-02 and again 2025-01-01, in
that storage order. -/
def entryDayA : Entry :=
  ⟨"click", ⟨none, some "/"⟩, "2025-01-01T09:00:00.000Z", "app", "anon"⟩

def entryDayB : Entry :=
  ⟨"click", ⟨none, some "/"⟩, "2025-01-02T09:00:00.000Z", "app", "anon"⟩

def entryDayA2 : Entry :=
  ⟨"click", ⟨none, some "/"⟩, "2025-01-01T23:00:00.000Z", "app", "anon"⟩

/-- Valid chain whose dates are A, B, A. -/
def c3eng : Engine :=
  appendAll sha256HexFallback
    [(entryDayA, "na"), (entryDayB, "nb"), (entryDayA2, "nc")] freshEngine

set_option maxRecDepth 1000000 in
/-- C3 counterexample: a valid stored sequence with dates A, B, A for
which replay computes streakCount = 3 while only 2 distinct UTC dates
occur among the records — so replay does not compute the number of
distinct dates. -/
theorem c3_counterexample :
    (verify sha256HexFallback c3eng).ok = true ∧
      (rebuildFromZero sha256HexFallback c3eng).2.state.streak = 3 ∧
      distinctDayCount c3eng.store = 2 ∧ (3 : ℕ) ≠ 2 := by
  decide

/-- Two same-day records used by the C3 witness. -/
def c3weng : Engine :=
  appendAll sha256HexFallback [(entryDayA, "na"), (entryDayA2, "nb")] freshEngine

set_option maxRecDepth 1000000 in
theorem c3_sorted_streak_eq_distinct_witness :
    (chainOk sha256HexFallback c3weng.store "GENESIS" = true ∧
      (∀ r ∈ c3weng.store, dayOf r ≠ "") ∧
      List.Pairwise (· ≤ ·) (c3weng.store.map dayOf)) ∧
      (rebuildFromZero sha256HexFallback c3weng).2.state.streak =
        distinctDayCount c3weng.store :=
  ⟨⟨by decide, by decide, by
      simp [c3weng, appendAll, appendEvent, saveMeta, freshEngine, dayOf,
        entryDayA, entryDayA2, List.pairwise_cons]⟩,
    c3_sorted_streak_eq_distinct sha256HexFallback c3weng (by decide) (by decide)
      (by
        simp [c3weng, appendAll, appendEvent, saveMeta, freshEngine, dayOf,
          entryDayA, entryDayA2, List.pairwise_cons])⟩

theorem rebuild_xp_of_chainOk (H : String → String) (e : Engine)
    (h : chainOk H e.store "GENESIS" = true) :
    (rebuildFromZero H e).2.state.xp = ((jsRound (xpSum e.store) : ℤ) : ℚ) := by
  unfold rebuildFromZero
  rw [replayLoop_eq]
  simp [validPart_of_chainOk H e.store "GENESIS" h, saveMeta]

theorem rebuild_streak_of_chainOk (H : String → String) (e : Engine)
    (h : chainOk H e.store "GENESIS" = true) :
    (rebuildFromZero H e).2.state.streak = streakSum e.store none := by
  unfold rebuildFromZero
  rw [replayLoop_eq]
  simp [validPart_of_chainOk H e.store "GENESIS" h, saveMeta]

/-- Three-step scenario of the specification: log xp 5, then xp 3, then
one heartbeat, starting from an empty chain. -/
def c4engA : Engine :=
  (log sha256HexFallback "xp" ⟨some 5, none⟩ "2025-01-01T10:00:00.000Z" "n1"
    freshEngine).2

def c4engB : Engine :=
  (log sha256HexFallback "xp" ⟨some 3, none⟩ "2025-01-01T10:01:00.000Z" "n2"
    c4engA).2

def c4engC : Engine :=
  (log sha256HexFallback "heartbeat" ⟨none, some "/"⟩ "2025-01-01T10:02:00.000Z"
    "n3" c4engB).2

set_option maxRecDepth 1000000 in
/-- C4 counterexample: immediately after the three log calls getState
reports experiencePoints = 0, not 8 — log applies no optimistic bump
for the xp and heartbeat types, and the authoritative xp is only
recomputed by the next full replay.  eventCount is 3 as claimed. -/
theorem c4_counterexample :
    (getState c4engC).xp = 0 ∧ (getState c4engC).xp ≠ 8 ∧
      (getState c4engC).events = 3 := by
  decide

set_option maxRecDepth 1000000 in
/-- C4 (amended): after the three log calls, eventCount is 3
immediately, and experiencePoints = 8 = round(5 + 3 + 0.1) is reported
by getState once the next full replay (rebuildFromZero) has run. -/
theorem c4_scenario_xp_after_replay :
    (getState (rebuildFromZero sha256HexFallback c4engC).2).xp = 8 ∧
      (getState (rebuildFromZero sha256HexFallback c4engC).2).events = 3 ∧
      (getState c4engC).events = 3 := by
  decide

/-- Entry of type xp whose amount is present and equal to 0. -/
def entryXp0 : Entry :=
  ⟨"xp", ⟨some 0, none⟩, "2025-01-01T00:00:00.000Z", "app", "anon"⟩

/-- Single-record chain whose xp record carries amount = 0. -/
def c5eng : Engine := appendAll sha256HexFallback [(entryXp0, "n1")] freshEngine

set_option maxRecDepth 1000000 in
/-- C5 counterexample: an xp record whose amount field is present and
equal to 0 contributes 1 experience point during replay, not the
claimed data.amount = 0: in (e.data && e.data.amount) || 1 the number
0 is falsy, so the default 1 applies. -/
theorem c5_counterexample :
    c5eng.store.map (fun r => r.data.amount) = [some 0] ∧
      (rebuildFromZero sha256HexFallback c5eng).2.state.xp = 1 ∧
      (1 : ℚ) ≠ 0 := by
  decide

/-- C5 (amended): during replay an xp record contributes data.amount
when the amount field is present and nonzero, and contributes the
default 1 both when the field is absent and when amount = 0 (falsy in
JavaScript).  Stated through whole single-record chains built by
appendEvent and replayed by rebuildFromZero. -/
theorem c5_xp_amount_accrual (H : String → String) (a : ℚ) (t nonce : String) :
    (rebuildFromZero H
        (appendAll H [(⟨"xp", ⟨some a, none⟩, t, "app", "anon"⟩, nonce)]
          freshEngine)).2.state.xp =
      ((jsRound (if a = 0 then 1 else a) : ℤ) : ℚ) ∧
    (rebuildFromZero H
        (appendAll H [(⟨"xp", ⟨none, none⟩, t, "app", "anon"⟩, nonce)]
          freshEngine)).2.state.xp = 1 := by
  constructor
  · have h := (chained_appendAll H
      [(⟨"xp", ⟨some a, none⟩, t, "app", "anon"⟩, nonce)] freshEngine
      (chained_fresh H)).1
    rw [rebuild_xp_of_chainOk H _ h]
    simp [appendAll, appendEvent, saveMeta, freshEngine, xpSum, xpDelta,
      xpAmountRule]
  · have h := (chained_appendAll H
      [(⟨"xp", ⟨none, none⟩, t, "app", "anon"⟩, nonce)] freshEngine
      (chained_fresh H)).1
    rw [rebuild_xp_of_chainOk H _ h]
    simp [appendAll, appendEvent, saveMeta, freshEngine, xpSum, xpDelta,
      xpAmountRule]
    decide

theorem xpDelta_interactive_zero (r : Record)
    (h : r.type = "click" ∨ r.type = "quest:complete") : xpDelta r = 0 := by
  rcases h with h | h <;> simp [xpDelta, h]

theorem xpSum_zero (l : List Record)
    (h : ∀ r ∈ l, r.type = "click" ∨ r.type = "quest:complete") :
    xpSum l = 0 := by
  unfold xpSum
  apply List.sum_eq_zero
  intro x hx
  obtain ⟨r, hr, rfl⟩ := List.mem_map.1 hx
  exact xpDelta_interactive_zero r (h r hr)

theorem appendAll_store_types (H : String → String)
    (evs : List (Entry × String)) :
    ∀ e, (appendAll H evs e).store.map Record.type =
      e.store.map Record.type ++ evs.map (fun p => p.1.type) := by
  induction evs with
  | nil => intro e; simp [appendAll]
  | cons p rest ih =>
    intro e
    have hstep : (appendEvent H p.1 p.2 e).2.store = e.store ++
        [⟨p.1.type, p.1.data, p.1.t, p.1.appId, p.1.profileId, e.lastHash, p.2,
          H (e.lastHash ++ "|" ++ p.1.payload ++ "|" ++ p.2)⟩] := rfl
    show (appendAll H rest (appendEvent H p.1 p.2 e).2).store.map Record.type = _
    rw [ih, hstep]
    simp

/-- C10: records of type click and quest:complete contribute zero
experience points during replay, so a chain consisting only of such
records rebuilds to experiencePoints = 0, while log() bumps the
in-memory experiencePoints by exactly 1 for those two types — an
optimistic increment that the next full replay discards. -/
theorem c10_interactive_types_zero_xp (H : String → String)
    (evs : List (Entry × String))
    (hty : ∀ p ∈ evs, p.1.type = "click" ∨ p.1.type = "quest:complete") :
    (rebuildFromZero H (appendAll H evs freshEngine)).2.state.xp = 0 ∧
      (∀ (ty : String) (d : Data) (t n : String) (e : Engine),
        ty = "click" ∨ ty = "quest:complete" →
        (log H ty d t n e).2.state.xp = e.state.xp + 1) := by
  constructor
  · have h := (chained_appendAll H evs freshEngine (chained_fresh H)).1
    rw [rebuild_xp_of_chainOk H _ h]
    have hz : xpSum (appendAll H evs freshEngine).store = 0 := by
      apply xpSum_zero
      intro r hr
      have hmem : r.type ∈ (appendAll H evs freshEngine).store.map Record.type :=
        List.mem_map.2 ⟨r, hr, rfl⟩
      rw [appendAll_store_types H evs freshEngine] at hmem
      simp only [freshEngine, List.map_nil, List.nil_append] at hmem
      obtain ⟨p, hp, hpt⟩ := List.mem_map.1 hmem
      rw [← hpt]
      exact hty p hp
    rw [hz]
    decide
  · intro ty d t n e h
    rcases h with h | h <;> subst h <;>
      simp [log, appendEvent, saveMeta]

theorem c10_interactive_types_zero_xp_witness :
    (∀ p ∈ ([(entryDayA, "w1")] : List (Entry × String)),
        p.1.type = "click" ∨ p.1.type = "quest:complete") ∧
      ((rebuildFromZero sha256HexFallback
          (appendAll sha256HexFallback [(entryDayA, "w1")] freshEngine)).2.state.xp = 0 ∧
        (∀ (ty : String) (d : Data) (t n : String) (e : Engine),
          ty = "click" ∨ ty = "quest:complete" →
          (log sha256HexFallback ty d t n e).2.state.xp = e.state.xp + 1)) :=
  ⟨by decide,
    c10_interactive_types_zero_xp sha256HexFallback [(entryDayA, "w1")] (by decide)⟩

theorem mergeLoop_of_chainOk (H : String → String) (l : List Record) :
    ∀ prev store, chainOk H l prev = true →
      mergeLoop l prev store = (store ++ l, headAfter l prev, l.length) := by
  induction l with
  | nil =>
    intro prev store _
    simp [mergeLoop, headAfter]
  | cons r rest ih =>
    intro prev store h
    have hla : linkOk H r prev = true := by
      by_contra hla
      simp only [chainOk, if_neg hla] at h
      exact absurd h (by simp)
    have hprev : r.prev = prev := ((linkOk_iff H r prev).1 hla).1
    simp only [chainOk, if_pos hla] at h
    simp only [mergeLoop, if_pos hprev, ih r.hash (store ++ [r]) h, headAfter,
      List.foldl_cons]
    simp [List.append_assoc]

theorem mergeLoop_none (l : List Record) :
    ∀ prev store, (∀ r ∈ l, r.prev ≠ prev) →
      mergeLoop l prev store = (store, prev, 0) := by
  induction l with
  | nil => intro _ _ _; rfl
  | cons r rest ih =>
    intro prev store h
    have hr : r.prev ≠ prev := h r (by simp)
    simp only [mergeLoop, if_neg hr]
    exact ih prev store (fun x hx => h x (by simp [hx]))

/-- The four replay-derived state fields depend only on the store. -/
theorem rebuild_state_fields_congr (H : String → String) (e1 e2 : Engine)
    (h : e1.store = e2.store) :
    (rebuildFromZero H e1).2.state.xp = (rebuildFromZero H e2).2.state.xp ∧
      (rebuildFromZero H e1).2.state.streak = (rebuildFromZero H e2).2.state.streak ∧
      (rebuildFromZero H e1).2.state.rootHash = (rebuildFromZero H e2).2.state.rootHash ∧
      (rebuildFromZero H e1).2.state.events = (rebuildFromZero H e2).2.state.events := by
  unfold rebuildFromZero saveMeta
  simp [h]

/-- C2 (amended): for every engine whose stored chain is valid and
whose derived state has been recomputed by replay (a rebuildFromZero
fixed point, i.e. no pending optimistic log() increments), exporting
and importing into a fresh engine with an empty store reproduces the
same experiencePoints, streakCount, chainHead and eventCount.  Without
the fixed-point condition the exporter may hold an optimistic
in-memory state that replay on the importer does not confirm (see the
counterexample). -/
theorem c2_export_import_roundtrip (H : String → String) (ex : Engine)
    (hvalid : chainOk H ex.store "GENESIS" = true)
    (hfix : (rebuildFromZero H ex).2 = ex) :
    (importLog H (some (exportLog ex)) freshEngine).2.state.xp = ex.state.xp ∧
      (importLog H (some (exportLog ex)) freshEngine).2.state.streak =
        ex.state.streak ∧
      (importLog H (some (exportLog ex)) freshEngine).2.state.rootHash =
        ex.state.rootHash ∧
      (importLog H (some (exportLog ex)) freshEngine).2.state.events =
        ex.state.events := by
  have hm := mergeLoop_of_chainOk H ex.store "GENESIS" [] hvalid
  have hres : (importLog H (some (exportLog ex)) freshEngine).2 =
      (rebuildFromZero H { freshEngine with
        store := (mergeLoop ex.store "GENESIS" []).1 }).2 := rfl
  have hstore : ({ freshEngine with
      store := (mergeLoop ex.store "GENESIS" []).1 } : Engine).store = ex.store := by
    rw [hm]
    simp
  have hfields := rebuild_state_fields_congr H
    { freshEngine with store := (mergeLoop ex.store "GENESIS" []).1 } ex hstore
  refine ⟨?_, ?_, ?_, ?_⟩
  · rw [hres, hfields.1, hfix]
  · rw [hres, hfields.2.1, hfix]
  · rw [hres, hfields.2.2.1, hfix]
  · rw [hres, hfields.2.2.2, hfix]

/-- Exporter engine with a valid one-record chain but a pending
optimistic increment: a click was logged and state.xp was bumped to 1
without any replay. -/
def c2eng : Engine :=
  (log sha256HexFallback "click" ⟨none, some "/p"⟩ "2025-01-05T00:00:00.000Z"
    "nc" freshEngine).2

set_option maxRecDepth 1000000 in
/-- C2 counterexample: c2eng has a valid stored chain, yet the
round-trip into a fresh engine yields experiencePoints 0 and
streakCount 1 where the exporter reports experiencePoints 1 (the
optimistic click bump) and streakCount 0 (never recomputed) — the
derived states are not identical. -/
theorem c2_counterexample :
    (verify sha256HexFallback c2eng).ok = true ∧
      (importLog sha256HexFallback (some (exportLog c2eng)) freshEngine).2.state.xp
        ≠ c2eng.state.xp ∧
      (importLog sha256HexFallback (some (exportLog c2eng)) freshEngine).2.state.streak
        ≠ c2eng.state.streak := by
  decide

/-- Replay-consistent exporter used by the C2 witness. -/
def c2wex : Engine :=
  (rebuildFromZero sha256HexFallback
    (appendAll sha256HexFallback [(entryXp5, "nw")] freshEngine)).2

set_option maxRecDepth 1000000 in
theorem c2_export_import_roundtrip_witness :
    (chainOk sha256HexFallback c2wex.store "GENESIS" = true ∧
      (rebuildFromZero sha256HexFallback c2wex).2 = c2wex) ∧
      ((importLog sha256HexFallback (some (exportLog c2wex)) freshEngine).2.state.xp
          = c2wex.state.xp ∧
        (importLog sha256HexFallback (some (exportLog c2wex)) freshEngine).2.state.streak
          = c2wex.state.streak ∧
        (importLog sha256HexFallback (some (exportLog c2wex)) freshEngine).2.state.rootHash
          = c2wex.state.rootHash ∧
        (importLog sha256HexFallback (some (exportLog c2wex)) freshEngine).2.state.events
          = c2wex.state.events) :=
  ⟨⟨by decide, by decide⟩,
    c2_export_import_roundtrip sha256HexFallback c2wex (by decide) (by decide)⟩

theorem chain_prev_ne (h : String) : ∀ (r0 : Record) (rest : List Record),
    List.Chain' (fun a b => b.prev = a.hash) (r0 :: rest) →
    r0.prev ≠ h → (∀ r ∈ r0 :: rest, r.hash ≠ h) →
    ∀ r ∈ r0 :: rest, r.prev ≠ h := by
  intro r0 rest
  induction rest generalizing r0 with
  | nil =>
    intro _ hfirst _ r hr
    simp only [List.mem_singleton] at hr
    subst hr
    exact hfirst
  | cons r1 rest ih =>
    intro hchain hfirst hhash r hr
    rcases List.mem_cons.1 hr with hr0 | hr'
    · subst hr0
      exact hfirst
    · refine ih r1 (List.chain'_cons.1 hchain).2 ?_ ?_ r hr'
      · have h01 : r1.prev = r0.hash := (List.chain'_cons.1 hchain).1
        rw [h01]
        exact hhash r0 (by simp)
      · intro x hx
        exact hhash x (by simp [hx])

/-- C7 (amended): for a replay-consistent local engine (a
rebuildFromZero fixed point), importing a linked foreign chain whose
prevHash of the first record differs from the local chainHead and no
stored hash of any of its records equals the local chainHead yields
mergedCount = 0 and leaves the engine — stored records and derived
state — entirely unchanged.  Both added conditions are needed: a later
foreign record whose prevHash happens to equal the local head would be
merged (records are skipped per record, not per chain), and the
unconditional rebuildFromZero at the end of importLog overwrites any
stale optimistic state (see the counterexample). -/
theorem c7_import_divergent_noop (H : String → String) (e : Engine)
    (hfix : (rebuildFromZero H e).2 = e)
    (j : ExportData) (r0 : Record) (rest : List Record)
    (hj : j.entries = r0 :: rest)
    (hchain : List.Chain' (fun a b => b.prev = a.hash) (r0 :: rest))
    (hfirst : r0.prev ≠ e.state.rootHash)
    (hhash : ∀ r ∈ r0 :: rest, r.hash ≠ e.state.rootHash) :
    importLog H (some j) e = ((⟨true, 0⟩ : ImportResult), e) := by
  have hall : ∀ r ∈ r0 :: rest, r.prev ≠ e.state.rootHash :=
    chain_prev_ne e.state.rootHash r0 rest hchain hfirst hhash
  have hm := mergeLoop_none (r0 :: rest) e.state.rootHash e.store hall
  show ((⟨true, (mergeLoop j.entries e.state.rootHash e.store).2.2⟩ : ImportResult),
      (rebuildFromZero H
        { e with store := (mergeLoop j.entries e.state.rootHash e.store).1 }).2) =
    ((⟨true, 0⟩ : ImportResult), e)
  rw [hj, hm]
  have heta : ({ e with store := (e.store, e.state.rootHash, 0).1 } : Engine) = e := rfl
  rw [heta, hfix]

/-- Local engine for the C7 counterexample: a click has been logged
(valid one-record chain, optimistic xp = 1, no replay since). -/
def c7eng : Engine :=
  (log sha256HexFallback "click" ⟨none, some "/"⟩ "2025-01-06T00:00:00.000Z"
    "n1" freshEngine).2

/-- Foreign payload whose single record does not extend the c7eng head. -/
def c7import : ExportData :=
  ⟨[⟨"xp", ⟨none, none⟩, "2025-01-07T00:00:00.000Z", "app", "anon",
      "XYZ", "n2", "h2"⟩],
    "XYZ-head", ⟨"app", "anon", 1, 0, 0⟩⟩

set_option maxRecDepth 1000000 in
/-- C7 counterexample: the foreign chain's first (and only) record has
prevHash "XYZ", different from the local chainHead, and mergedCount is
indeed 0 — but the local derived state does not stay unchanged: the
unconditional replay at the end of importLog overwrites the optimistic
experiencePoints 1 with the authoritative 0. -/
theorem c7_counterexample :
    c7import.entries.map Record.prev = ["XYZ"] ∧
      "XYZ" ≠ c7eng.state.rootHash ∧
      (importLog sha256HexFallback (some c7import) c7eng).1.merged = 0 ∧
      (importLog sha256HexFallback (some c7import) c7eng).2.state.xp
        ≠ c7eng.state.xp := by
  decide

/-- Replay-consistent local engine used by the C7 witness. -/
def c7weng : Engine := (rebuildFromZero sha256HexFallback freshEngine).2

/-- The single foreign record inside c7import. -/
def c7rec : Record :=
  ⟨"xp", ⟨none, none⟩, "2025-01-07T00:00:00.000Z", "app", "anon",
    "XYZ", "n2", "h2"⟩

set_option maxRecDepth 1000000 in
theorem c7_import_divergent_noop_witness :
    ((rebuildFromZero sha256HexFallback c7weng).2 = c7weng ∧
      c7import.entries = c7rec :: [] ∧
      List.Chain' (fun a b => b.prev = a.hash) (c7rec :: []) ∧
      c7rec.prev ≠ c7weng.state.rootHash ∧
      (∀ r ∈ c7rec :: [], r.hash ≠ c7weng.state.rootHash)) ∧
      importLog sha256HexFallback (some c7import) c7weng =
        ((⟨true, 0⟩ : ImportResult), c7weng) :=
  ⟨⟨by decide, by decide, List.chain'_singleton c7rec, by decide, by decide⟩,
    c7_import_divergent_noop sha256HexFallback c7weng (by decide) c7import
      c7rec [] (by decide) (List.chain'_singleton c7rec) (by decide) (by decide)⟩

end Forge
